import Mathlib

/-!
Verification development for the directory-listing crawler in
`src/scripts/rp_cli.py` (functions `_parse_links` and `crawl_directory`).

Strings are embedded as `List Char` (`Str`).  The HTTP layer is embedded as a
function `fetch : Str → Option Str` mapping a URL to the fetched page body
(`none` models `urllib.error.URLError` / `OSError`, the exceptions the crawler
catches).  Thread scheduling is embedded as a completion-order function
`sched : Nat → List Item → List Item`: at BFS level `n` the futures of the
submitted items complete in the order `sched n items` (a permutation of
`items` for any real execution; `idSched` is submission order).
-/

set_option maxRecDepth 100000

namespace RpCli

/-- Strings of the Python program, as lists of characters. -/
abbrev Str := List Char

/-- Coerce a Lean string literal to `Str`. -/
def str (s : String) : Str := s.data

/-- Python `\s` on ASCII input: space, tab, newline, carriage return,
vertical tab, form feed. -/
def pySpace (c : Char) : Bool :=
  c = ' ' || c = '\t' || c = '\n' || c = '\x0d' || c = Char.ofNat 11 || c = Char.ofNat 12

/-- Python `str.strip()`: drop whitespace from both ends. -/
def pyStrip (s : Str) : Str :=
  ((s.dropWhile pySpace).reverse.dropWhile pySpace).reverse

/-- Python `str.rstrip("/")`: drop trailing `'/'` characters. -/
def pyRstripSlash (s : Str) : Str :=
  (s.reverse.dropWhile (fun c => c = '/')).reverse

/-- Python `"/"` suffix test (`str.endswith("/")`). -/
def endsWithSlash (s : Str) : Bool :=
  (str "/").isSuffixOf s

/-- Python `needle in s` (substring test). -/
def hasSub (needle : Str) : Str → Bool
  | [] => needle.isPrefixOf []
  | c :: rest => needle.isPrefixOf (c :: rest) || hasSub needle rest

/-- The literal `href="` that `LINK_RE` looks for after `<a` + whitespace. -/
def hrefLit : Str := str "href=\""

/-- One backtracking candidate of `LINK_RE` at offset `k` after the `<a\s+`:
`[^>]*` has consumed `k` characters, then the literal `href="`, the capture
`([^"]*)`, the literal `"`, then `[^>]*>`, the capture `([^<]*)` and the
literal `</a>`.  Returns `((href, rawText), rest-after-match)` on success. -/
def tryCandidate (afterWs : Str) (k : Nat) : Option ((Str × Str) × Str) :=
  let afterHref := afterWs.drop (k + 6)
  let hrefVal := afterHref.takeWhile (fun c => c != '\"')
  match afterHref.drop hrefVal.length with
  | '\"' :: rest2 =>
    let junk := rest2.takeWhile (fun c => c != '>')
    match rest2.drop junk.length with
    | '>' :: rest4 =>
      let text := rest4.takeWhile (fun c => c != '<')
      let rest5 := rest4.drop text.length
      if (str "</a>").isPrefixOf rest5 then
        some ((hrefVal, text), rest5.drop 4)
      else none
    | _ => none
  | _ => none

/-- Greedy backtracking of `[^>]*href="`: try the candidate offsets for the
literal `href="` from the largest (`k`) down to `0`; the first offset whose
continuation matches wins, as in Python's leftmost-longest backtracking. -/
def scanBack (afterWs : Str) : Nat → Option ((Str × Str) × Str)
  | 0 =>
    if hrefLit.isPrefixOf afterWs then tryCandidate afterWs 0 else none
  | k + 1 =>
    match (if hrefLit.isPrefixOf (afterWs.drop (k + 1)) then
             tryCandidate afterWs (k + 1) else none) with
    | some r => some r
    | none => scanBack afterWs k

/-- Attempt to match `LINK_RE` (`<a\s+[^>]*href="([^"]*)"[^>]*>([^<]*)</a>`)
at the head of the input.  The `[^>]*` region is the maximal run of
non-`'>'` characters after the mandatory whitespace; candidate positions for
`href="` are tried greedily from the right. -/
def matchAnchorAt : Str → Option ((Str × Str) × Str)
  | '<' :: 'a' :: rest =>
    let ws := rest.takeWhile pySpace
    if ws.isEmpty then none
    else
      let afterWs := rest.drop ws.length
      let region := afterWs.takeWhile (fun c => c != '>')
      scanBack afterWs region.length
  | _ => none

/-- `LINK_RE.finditer`: scan left to right; on a failed match attempt advance
one character, on a successful match continue after the match.  The fuel is
the input length; every step consumes at least one character, so it never
runs out. -/
def scanAnchorsAux : Nat → Str → List (Str × Str)
  | 0, _ => []
  | _, [] => []
  | fuel + 1, c :: rest =>
    match matchAnchorAt (c :: rest) with
    | some (p, after) => p :: scanAnchorsAux fuel after
    | none => scanAnchorsAux fuel rest

/-- All `(href, raw text)` captures of `LINK_RE` in page order. -/
def scanAnchors (html : Str) : List (Str × Str) :=
  scanAnchorsAux html.length html

/-! ### Model of `urllib.parse.urljoin`

`_parse_links` only joins hrefs that are nonempty, carry no `://`, and do not
start with `/`, `?` or `#`; the bases are directory URLs.  For such inputs
`urljoin` keeps the base's scheme and authority, replaces the last path
segment of the base with the reference path and removes dot segments in the
way CPython's `urllib.parse.urljoin` does (unconditional pop on `..`, a
trailing empty segment when the last merged segment is `.` or `..`, and a
bare `/` when everything cancels).  Scheme-less hrefs containing `:` before
any `/` and query strings in the base are outside the modelled inputs. -/

/-- Split off `scheme://authority` from a URL: returns the prefix (possibly
empty) and the remaining path. -/
def splitSchemeAuth (u : Str) : Str × Str :=
  if hasSub (str "://") u then
    let beforeSep := u.takeWhile (fun c => c != ':')
    let afterSep := (u.drop beforeSep.length).drop 3
    let auth := afterSep.takeWhile (fun c => c != '/')
    (beforeSep ++ str "://" ++ auth, afterSep.drop auth.length)
  else ([], u)

/-- CPython's dot-segment resolution loop over the merged segment list. -/
def resolveSegs : List Str → List Str → List Str
  | out, [] => out.reverse
  | out, seg :: rest =>
    if seg = str ".." then
      match out with
      | [] => resolveSegs [] rest
      | _ :: out' => resolveSegs out' rest
    else if seg = str "." then resolveSegs out rest
    else resolveSegs (seg :: out) rest

/-- Join a segment list back with `'/'`. -/
def joinSegs : List Str → Str
  | [] => []
  | [s] => s
  | s :: rest => s ++ '/' :: joinSegs rest

/-- Model of `urllib.parse.urljoin(base, href)` for the crawler's inputs. -/
def urljoin (base href : Str) : Str :=
  let basePre := base.takeWhile (fun c => c != '?' && c != '#')
  let hpath := href.takeWhile (fun c => c != '?' && c != '#')
  let hsuff := href.drop hpath.length
  let sa := splitSchemeAuth basePre
  let bsegs := (sa.2.splitOn '/').dropLast
  let merged := bsegs ++ hpath.splitOn '/'
  let resolved := resolveSegs [] merged
  let resolved' :=
    match merged.getLast? with
    | some lastSeg => if lastSeg = str "." || lastSeg = str ".." then resolved ++ [[]] else resolved
    | none => resolved
  let path := joinSegs resolved'
  let path' := if path.isEmpty then str "/" else path
  let path'' :=
    if sa.1.isEmpty then path'
    else match path' with
      | '/' :: _ => path'
      | _ => '/' :: path'
  sa.1 ++ path'' ++ hsuff

/-! ### `_parse_links` -/

/-- The loop body of `_parse_links`: walk the regex captures in order,
applying the filters in source order (empty or `../`; leading `?`, `#`, `/`;
contains `://`; href already in `seen`), then record
`(name.rstrip("/"), urljoin(base_url, href), href.endswith("/"))` and add the
href to `seen`.  `name` is the already-stripped capture text. -/
def parseLinksAux (base : Str) (seen : List Str) : List (Str × Str) → List (Str × Str × Bool)
  | [] => []
  | (href, rawText) :: rest =>
    let name := pyStrip rawText
    if href.isEmpty || href == str "../" then
      parseLinksAux base seen rest
    else if href.head? == some '?' || href.head? == some '#' || href.head? == some '/' then
      parseLinksAux base seen rest
    else if hasSub (str "://") href then
      parseLinksAux base seen rest
    else if seen.contains href then
      parseLinksAux base seen rest
    else
      (pyRstripSlash name, urljoin base href, endsWithSlash href)
        :: parseLinksAux base (href :: seen) rest

/-- `_parse_links(html, base_url)`: list of `(name, absolute_url, is_dir)`. -/
def _parse_links (html base : Str) : List (Str × Str × Bool) :=
  parseLinksAux base [] (scanAnchors html)

/-! ### `crawl_directory` -/

/-- One `("d"/"f", path, url)` tuple of the results list. -/
structure Entry where
  kind : Str
  path : Str
  url : Str
  deriving DecidableEq, Repr

/-- A frontier tuple `(url, path_prefix)`.  The `depth` component of the
Python tuples is the BFS level counter: every tuple in `current_level` during
iteration `level` carries `depth = level` (the root starts at depth 0 and
children get `depth + 1`), so the loop below tracks it once per level. -/
abbrev Item := Str × Str

/-- The completion order in which `as_completed` yields a level's futures.
`idSched` is submission order. -/
def idSched : Nat → List Item → List Item := fun _ l => l

/-- The body of `for name, link_url, is_dir in _parse_links(html, url)`:
build the entry `(kind, pfx + name + ("/" if is_dir else ""), link_url)` and,
for directories, the next-level tuple `(link_url, pfx + name + "/")`. -/
def processLinks (pfx : Str) : List (Str × Str × Bool) → List Entry × List Item
  | [] => ([], [])
  | (name, linkUrl, isDir) :: rest =>
    let out := processLinks pfx rest
    (⟨if isDir then str "d" else str "f",
      pfx ++ name ++ (if isDir then str "/" else []),
      linkUrl⟩ :: out.1,
     if isDir then (linkUrl, pfx ++ name ++ str "/") :: out.2 else out.2)

/-- Handling of one completed future: `future.result()` raising a caught
`URLError`/`OSError` (`fetch = none`) contributes nothing; otherwise the
page's links are parsed against the item's own URL and folded into entries
and next-level items. -/
def processItem (fetch : Str → Option Str) (it : Item) : List Entry × List Item :=
  match fetch it.1 with
  | none => ([], [])
  | some html => processLinks it.2 (_parse_links html it.1)

/-- The `while current_level:` loop.  Per iteration the Python code exits
when the level is empty, skips every item (and then breaks on the empty
`future_map`) when `depth >= max_depth` — since all tuples of a level carry
the same depth, the per-item filter is all-or-nothing — and otherwise
fetches all items (the submission order `items` is the fetch log), processes
the completed futures in completion order `sched level items`, and loops on
the gathered next level.  `fuel` is the remaining depth budget
`(max_depth - level).toNat`, so `fuel = 0` holds exactly when the Python
guard `depth >= max_depth` does; `level` is the common depth of the items.
Returns the unsorted results list and the fetch log. -/
def crawlLoop (fetch : Str → Option Str) (sched : Nat → List Item → List Item) :
    Nat → Nat → List Item → List Entry × List Str
  | _, _, [] => ([], [])
  | 0, _, _ => ([], [])
  | fuel + 1, level, it :: its =>
    let completed := sched level (it :: its)
    let entries := completed.flatMap (fun i => (processItem fetch i).1)
    let next := completed.flatMap (fun i => (processItem fetch i).2)
    let rest := crawlLoop fetch sched fuel (level + 1) next
    (entries ++ rest.1, (it :: its).map Prod.fst ++ rest.2)

/-- `if not root_url.endswith("/"): root_url += "/"`. -/
def normRoot (root_url : Str) : Str :=
  if endsWithSlash root_url then root_url else root_url ++ str "/"

/-- Python string `<` on paths (lexicographic by code point), as the `≤` used
by `results.sort(key=lambda x: x[1])`. -/
def strLe : Str → Str → Bool
  | [], _ => true
  | _ :: _, [] => false
  | a :: as, b :: bs =>
    if a.toNat < b.toNat then true
    else if b.toNat < a.toNat then false
    else strLe as bs

/-- Comparator of the final stable sort: by `path`. -/
def entryLe (e₁ e₂ : Entry) : Bool := strLe e₁.path e₂.path

/-- Python's `results.sort(key=lambda x: x[1])` is a stable sort by path and
a stable sort's output is unique, so it is modelled by stable insertion
sort with the non-strict path order. -/
def sortEntries (l : List Entry) : List Entry :=
  List.insertionSort (fun a b => entryLe a b = true) l

/-- `crawl_directory(root_url, max_depth, workers)`.  `fetch` is the HTTP
layer and `sched` the completion order (see the header).  The only top-level
failure is the `ValueError` that `ThreadPoolExecutor(max_workers=workers)`
raises for `workers <= 0`, before any fetch; it is modelled as
`Except.error`.  On success the accumulated entries are returned sorted
stably by path.  The loop's depth budget starts at `max_depth.toNat`
(`depth 0 >= max_depth` holds exactly when `max_depth.toNat = 0`). -/
def crawl_directory (fetch : Str → Option Str) (sched : Nat → List Item → List Item)
    (root_url : Str) (max_depth : Int) (workers : Int) : Except Str (List Entry) :=
  let root := normRoot root_url
  if workers ≤ 0 then Except.error (str "max_workers must be greater than 0")
  else Except.ok (sortEntries (crawlLoop fetch sched max_depth.toNat 0 [(root, [])]).1)

/-- The URLs submitted to `executor.submit(_fetch_page, url)` over the whole
crawl, in submission order (empty when the executor construction fails). -/
def crawlFetchLog (fetch : Str → Option Str) (sched : Nat → List Item → List Item)
    (root_url : Str) (max_depth : Int) (workers : Int) : List Str :=
  if workers ≤ 0 then []
  else (crawlLoop fetch sched max_depth.toNat 0 [(normRoot root_url, [])]).2

/-- The URL of a directory entry (`none` for file entries). -/
def dirUrl (e : Entry) : Option Str :=
  if e.kind = str "d" then some e.url else none

/-! ### Declarative description of the extractor, in the spec's words -/

/-- Spec wording: an anchor's href is kept exactly when it is not empty, not
the literal `../`, does not begin with `?`, `#` or `/`, and does not contain
`://`. -/
def keepHref (href : Str) : Bool :=
  !(href.isEmpty || href == str "../"
    || href.head? == some '?' || href.head? == some '#' || href.head? == some '/'
    || hasSub (str "://") href)

/-- Spec wording: discard hrefs that are case-sensitive exact duplicates of
an href already seen on the page; first occurrence wins. -/
def dedupBy (seen : List Str) : List (Str × Str) → List (Str × Str)
  | [] => []
  | p :: rest =>
    if seen.contains p.1 then dedupBy seen rest
    else p :: dedupBy (p.1 :: seen) rest

/-- Spec wording for one kept anchor: the display name is the anchor text
trimmed of whitespace and trailing `/`, the URL is resolved against the page
URL, and an href ending in `/` denotes a directory. -/
def buildLink (base : Str) (p : Str × Str) : Str × Str × Bool :=
  (pyRstripSlash (pyStrip p.2), urljoin base p.1, endsWithSlash p.1)

/-- Spec wording for the entry built from one extracted link, at prefix
`pfx`: `path = pathPrefix + name + ("/" if directory else "")`, with the
resolved URL. -/
def entryOf (pfx : Str) (l : Str × Str × Bool) : Entry :=
  ⟨if l.2.2 then str "d" else str "f",
   pfx ++ l.1 ++ (if l.2.2 then str "/" else []),
   l.2.1⟩

/-- Spec wording for the next-frontier item of one extracted link: exactly
the directory links produce `(absoluteUrl, pathPrefix + name + "/")` (the
depth component is the level counter plus one). -/
def frontierOf (pfx : Str) (l : Str × Str × Bool) : Option Item :=
  if l.2.2 then some (l.2.1, pfx ++ l.1 ++ str "/") else none

/-! ### Concrete directory trees and schedules used as fixtures -/

/-- The spec's link-filtering page: parent, query, absolute-path and
cross-origin anchors plus one real child. -/
def filterPage : Str :=
  str "<a href=\"../\">Parent</a><a href=\"?C=N\">Name</a><a href=\"/abs/\">Abs</a><a href=\"http://other.example/\">Other</a><a href=\"child/\">Child</a>"

/-- A page with two identical anchors. -/
def dupAnchorPage : Str := str "<a href=\"x/\">X</a><a href=\"x/\">X</a>"

/-- The spec's end-to-end tree: root lists `a/` and `b.txt`; `a/` lists
`c.txt`; everything else fails to fetch. -/
def fetchE2E : Str → Option Str := fun u =>
  if u = str "http://h/" then some (str "<a href=\"a/\">a</a><a href=\"b.txt\">b.txt</a>")
  else if u = str "http://h/a/" then some (str "<a href=\"c.txt\">c.txt</a>")
  else none

/-- Two sibling directories with the same display text `N`, each holding a
file `c`: the two files get the same path `N/c` but different URLs. -/
def fetchDup : Str → Option Str := fun u =>
  if u = str "http://h/" then some (str "<a href=\"x/\">N</a><a href=\"y/\">N</a>")
  else if u = str "http://h/x/" then some (str "<a href=\"c\">c</a>")
  else if u = str "http://h/y/" then some (str "<a href=\"c\">c</a>")
  else none

/-- An acyclic double-discovery listing (a DAG that is not a tree): `a/`
links both `x/` and `x/s/`, and `x/` links `s/`, so `http://h/a/x/s/` is
discovered twice. -/
def fetchDia : Str → Option Str := fun u =>
  if u = str "http://h/" then some (str "<a href=\"a/\">a</a>")
  else if u = str "http://h/a/" then some (str "<a href=\"x/\">x</a><a href=\"x/s/\">y</a>")
  else if u = str "http://h/a/x/" then some (str "<a href=\"s/\">s</a>")
  else none

/-- A completion order that reverses the futures of level 1 and keeps every
other level in submission order; a permutation of each level. -/
def revSched : Nat → List Item → List Item := fun n l => if n = 1 then l.reverse else l

/-! ### Characterization lemmas for the extractor -/

/-- The filter/dedup loop of `_parse_links` equals: filter by `keepHref`,
deduplicate by first-seen href, then build each link. -/
theorem parseLinksAux_eq (base : Str) (pairs : List (Str × Str)) :
    ∀ seen : List Str,
      parseLinksAux base seen pairs
        = (dedupBy seen (pairs.filter (fun p => keepHref p.1))).map (buildLink base) := by
  induction pairs with
  | nil => intro seen; rfl
  | cons p rest ih =>
    intro seen
    obtain ⟨href, rawText⟩ := p
    by_cases c1 : href = []
    · simp [parseLinksAux, c1, keepHref, List.filter_cons, ih]
    · by_cases c2 : href = str "../"
      · simp [parseLinksAux, c1, c2, keepHref, List.filter_cons, ih]
      · by_cases c3 : href.head? = some '?'
        · simp [parseLinksAux, c1, c2, c3, keepHref, List.filter_cons, ih]
        · by_cases c4 : href.head? = some '#'
          · simp [parseLinksAux, c1, c2, c3, c4, keepHref, List.filter_cons, ih]
          · by_cases c5 : href.head? = some '/'
            · simp [parseLinksAux, c1, c2, c3, c4, c5, keepHref, List.filter_cons, ih]
            · by_cases c6 : hasSub (str "://") href = true
              · simp [parseLinksAux, c1, c2, c3, c4, c5, c6, keepHref, List.filter_cons, ih]
              · by_cases c7 : href ∈ seen
                · simp [parseLinksAux, c1, c2, c3, c4, c5, c6, c7, keepHref,
                    List.filter_cons, dedupBy, ih]
                · simp [parseLinksAux, c1, c2, c3, c4, c5, c6, c7, keepHref,
                    List.filter_cons, dedupBy, ih, buildLink]

/-- `dedupBy` only selects elements of its input. -/
theorem dedupBy_sublist (pairs : List (Str × Str)) :
    ∀ seen, (dedupBy seen pairs).Sublist pairs := by
  induction pairs with
  | nil => intro seen; exact List.Sublist.refl []
  | cons p rest ih =>
    intro seen
    by_cases h : p.1 ∈ seen
    · simpa [dedupBy, h] using List.Sublist.cons p (ih seen)
    · simpa [dedupBy, h] using List.Sublist.cons₂ p (ih (p.1 :: seen))

/-- The per-item loop of `crawl_directory` is: map each link to its entry,
and keep exactly the directory links as next-frontier items. -/
theorem processLinks_eq (pfx : Str) (links : List (Str × Str × Bool)) :
    processLinks pfx links = (links.map (entryOf pfx), links.filterMap (frontierOf pfx)) := by
  induction links with
  | nil => rfl
  | cons l rest ih =>
    obtain ⟨name, linkUrl, isDir⟩ := l
    cases isDir <;> simp [processLinks, ih, entryOf, frontierOf, List.filterMap_cons]

/-- The next-frontier URLs of an item are exactly the URLs of its directory
entries, in order. -/
theorem processLinks_dir_urls (pfx : Str) (links : List (Str × Str × Bool)) :
    ((processLinks pfx links).2).map Prod.fst = (processLinks pfx links).1.filterMap dirUrl := by
  induction links with
  | nil => rfl
  | cons l rest ih =>
    obtain ⟨name, linkUrl, isDir⟩ := l
    cases isDir <;>
      simp [processLinks, ih, dirUrl, List.filterMap_cons, str]

/-- `processItem` version of `processLinks_dir_urls`. -/
theorem processItem_dir_urls (fetch : Str → Option Str) (it : Item) :
    ((processItem fetch it).2).map Prod.fst = (processItem fetch it).1.filterMap dirUrl := by
  unfold processItem
  cases fetch it.1 with
  | none => rfl
  | some html => exact processLinks_dir_urls it.2 (_parse_links html it.1)

/-! ### The path order -/

theorem strLe_cons_iff (x y : Char) (xs ys : Str) :
    strLe (x :: xs) (y :: ys) = true
      ↔ x.toNat < y.toNat ∨ (x.toNat = y.toNat ∧ strLe xs ys = true) := by
  simp only [strLe]
  split_ifs with h1 h2
  · simp only [true_iff]
    exact Or.inl h1
  · simp only [false_iff]
    rintro (h | ⟨h, -⟩) <;> omega
  · have hxy : x.toNat = y.toNat := by omega
    simp [hxy]

theorem strLe_total (a b : Str) : strLe a b = true ∨ strLe b a = true := by
  induction a generalizing b with
  | nil => left; rfl
  | cons x xs ih =>
    cases b with
    | nil => right; rfl
    | cons y ys =>
      rcases Nat.lt_trichotomy x.toNat y.toNat with h | h | h
      · left; rw [strLe_cons_iff]; exact Or.inl h
      · rcases ih ys with h' | h'
        · left; rw [strLe_cons_iff]; exact Or.inr ⟨h, h'⟩
        · right; rw [strLe_cons_iff]; exact Or.inr ⟨h.symm, h'⟩
      · right; rw [strLe_cons_iff]; exact Or.inl h

theorem strLe_trans (a b c : Str) (hab : strLe a b = true) (hbc : strLe b c = true) :
    strLe a c = true := by
  induction a generalizing b c with
  | nil => rfl
  | cons x xs ih =>
    cases b with
    | nil => exact absurd hab (by simp [strLe])
    | cons y ys =>
      cases c with
      | nil => exact absurd hbc (by simp [strLe])
      | cons z zs =>
        rw [strLe_cons_iff] at hab hbc ⊢
        rcases hab with h | ⟨h, h'⟩ <;> rcases hbc with g | ⟨g, g'⟩
        · exact Or.inl (Nat.lt_trans h g)
        · exact Or.inl (by omega)
        · exact Or.inl (by omega)
        · exact Or.inr ⟨by omega, ih ys zs h' g'⟩

theorem strLe_antisymm (a b : Str) (hab : strLe a b = true) (hba : strLe b a = true) :
    a = b := by
  induction a generalizing b with
  | nil =>
    cases b with
    | nil => rfl
    | cons y ys => exact absurd hba (by simp [strLe])
  | cons x xs ih =>
    cases b with
    | nil => exact absurd hab (by simp [strLe])
    | cons y ys =>
      rw [strLe_cons_iff] at hab hba
      have hxy : x.toNat = y.toNat := by omega
      have hxs : strLe xs ys = true := by
        rcases hab with h | ⟨_, h⟩
        · omega
        · exact h
      have hys : strLe ys xs = true := by
        rcases hba with h | ⟨_, h⟩
        · omega
        · exact h
      have : x = y := Char.eq_of_val_eq (UInt32.ext hxy)
      rw [this, ih ys hxs hys]

theorem entryLe_trans (a b c : Entry) (hab : entryLe a b = true) (hbc : entryLe b c = true) :
    entryLe a c = true :=
  strLe_trans a.path b.path c.path hab hbc

theorem entryLe_total (a b : Entry) : (entryLe a b || entryLe b a) = true := by
  rcases strLe_total a.path b.path with h | h <;> simp [entryLe, h]

/-- Two sorted permutations of each other with pairwise-distinct paths are
equal as lists. -/
theorem eq_of_perm_sorted_nodup_paths {l₁ l₂ : List Entry}
    (hp : l₁.Perm l₂)
    (hs₁ : List.Pairwise (fun a b => entryLe a b = true) l₁)
    (hs₂ : List.Pairwise (fun a b => entryLe a b = true) l₂)
    (hnd : (l₁.map Entry.path).Nodup) : l₁ = l₂ := by
  have hne₁ : List.Pairwise (fun a b : Entry => a.path ≠ b.path) l₁ :=
    List.pairwise_map.mp hnd
  have hnd₂ : (l₂.map Entry.path).Nodup := ((hp.map Entry.path).nodup_iff).mp hnd
  have hne₂ : List.Pairwise (fun a b : Entry => a.path ≠ b.path) l₂ :=
    List.pairwise_map.mp hnd₂
  haveI : IsAntisymm Entry (fun a b => entryLe a b = true ∧ a.path ≠ b.path) :=
    ⟨fun a b hab hba => absurd (strLe_antisymm a.path b.path hab.1 hba.1) hab.2⟩
  exact List.eq_of_perm_of_sorted hp (hs₁.and hne₁) (hs₂.and hne₂)

/-- Two sorted permutations of each other have identical path sequences,
duplicates included. -/
theorem map_path_eq_of_perm_sorted {l₁ l₂ : List Entry}
    (hp : l₁.Perm l₂)
    (hs₁ : List.Pairwise (fun a b => entryLe a b = true) l₁)
    (hs₂ : List.Pairwise (fun a b => entryLe a b = true) l₂) :
    l₁.map Entry.path = l₂.map Entry.path :=
  @List.eq_of_perm_of_sorted Str (fun a b => strLe a b = true) ⟨strLe_antisymm⟩ _ _
    (hp.map Entry.path) (List.pairwise_map.mpr hs₁) (List.pairwise_map.mpr hs₂)

/-! ### Unfolding and invariants of the BFS loop -/

theorem crawlLoop_stop (fetch : Str → Option Str) (sched : Nat → List Item → List Item)
    (fuel level : Nat) (items : List Item)
    (h : items = [] ∨ fuel = 0) :
    crawlLoop fetch sched fuel level items = ([], []) := by
  rcases h with h | h
  · subst h; cases fuel <;> rfl
  · subst h; cases items <;> rfl

theorem crawlLoop_go (fetch : Str → Option Str) (sched : Nat → List Item → List Item)
    (fuel level : Nat) (items : List Item)
    (h : items ≠ []) :
    crawlLoop fetch sched (fuel + 1) level items =
      ((sched level items).flatMap (fun it => (processItem fetch it).1)
         ++ (crawlLoop fetch sched fuel (level + 1)
              ((sched level items).flatMap (fun it => (processItem fetch it).2))).1,
       items.map Prod.fst
         ++ (crawlLoop fetch sched fuel (level + 1)
              ((sched level items).flatMap (fun it => (processItem fetch it).2))).2) := by
  cases items with
  | nil => exact absurd rfl h
  | cons it its => rfl

/-- The unsorted result list is schedule-invariant up to permutation: two
completion orders over permuted frontiers yield permuted results. -/
theorem crawlLoop_perm (fetch : Str → Option Str)
    (s₁ s₂ : Nat → List Item → List Item)
    (h₁ : ∀ n l, (s₁ n l).Perm l) (h₂ : ∀ n l, (s₂ n l).Perm l) :
    ∀ (fuel level : Nat) (items₁ items₂ : List Item), items₁.Perm items₂ →
      ((crawlLoop fetch s₁ fuel level items₁).1).Perm
        ((crawlLoop fetch s₂ fuel level items₂).1) := by
  intro fuel
  induction fuel with
  | zero =>
    intro level items₁ items₂ hp
    rw [crawlLoop_stop fetch s₁ 0 level items₁ (Or.inr rfl),
      crawlLoop_stop fetch s₂ 0 level items₂ (Or.inr rfl)]
  | succ fuel ih =>
    intro level items₁ items₂ hp
    by_cases hnil : items₁ = []
    · have hnil₂ : items₂ = [] := List.Perm.eq_nil (hnil ▸ hp).symm
      rw [crawlLoop_stop fetch s₁ (fuel + 1) level items₁ (Or.inl hnil),
        crawlLoop_stop fetch s₂ (fuel + 1) level items₂ (Or.inl hnil₂)]
    · have hnil₂ : items₂ ≠ [] := fun h2 => hnil (List.Perm.eq_nil (h2 ▸ hp))
      rw [crawlLoop_go fetch s₁ fuel level items₁ hnil,
        crawlLoop_go fetch s₂ fuel level items₂ hnil₂]
      have hc : (s₁ level items₁).Perm (s₂ level items₂) :=
        ((h₁ level items₁).trans hp).trans (h₂ level items₂).symm
      exact (List.Perm.flatMap_right _ hc).append
        (ih (level + 1) _ _ (List.Perm.flatMap_right _ hc))

/-- Every fetched URL is either a submitted frontier URL or, inductively,
the URL of a discovered directory entry: the fetch log is a sublist of the
frontier URLs followed by the directory-entry URLs of the unsorted result. -/
theorem crawlLoop_log_sublist (fetch : Str → Option Str) :
    ∀ (fuel level : Nat) (items : List Item),
      ((crawlLoop fetch idSched fuel level items).2).Sublist
        (items.map Prod.fst
          ++ ((crawlLoop fetch idSched fuel level items).1).filterMap dirUrl) := by
  intro fuel
  induction fuel with
  | zero =>
    intro level items
    rw [crawlLoop_stop fetch idSched 0 level items (Or.inr rfl)]
    exact List.nil_sublist _
  | succ fuel ih =>
    intro level items
    by_cases hnil : items = []
    · rw [crawlLoop_stop fetch idSched (fuel + 1) level items (Or.inl hnil)]
      exact List.nil_sublist _
    · rw [crawlLoop_go fetch idSched fuel level items hnil]
      simp only [idSched]
      rw [List.filterMap_append]
      have hkey : (items.flatMap (fun it => (processItem fetch it).1)).filterMap dirUrl
          = (items.flatMap (fun it => (processItem fetch it).2)).map Prod.fst := by
        rw [List.filterMap_flatMap, List.map_flatMap]
        exact congrArg items.flatMap
          (funext fun it => (processItem_dir_urls fetch it).symm)
      rw [hkey]
      exact List.Sublist.append_left (ih (level + 1) _) _

/-- `revSched` reorders every level into a permutation of it. -/
theorem revSched_perm (n : Nat) (l : List Item) : (revSched n l).Perm l := by
  unfold revSched
  split_ifs
  · exact List.reverse_perm l
  · exact List.Perm.refl l

/-! ### The claims -/

/-- C4.  Link filtering of `extractLinks` (`_parse_links`): an anchor found
by the page scan is discarded exactly when its href is empty or `../`,
begins with `?`, `#` or `/`, contains `://`, or duplicates an earlier href
of the same page (first occurrence wins) — the output is precisely the
scanned pairs filtered by `keepHref`, deduplicated by first-seen href and
built into links.  In particular the spec's five-anchor page yields only
`Child`, and a page with two identical anchors yields exactly one link. -/
theorem parse_links_filtering :
    (∀ html base, _parse_links html base
        = (dedupBy [] ((scanAnchors html).filter (fun p => keepHref p.1))).map (buildLink base))
    ∧ _parse_links filterPage (str "http://h/") = [(str "Child", str "http://h/child/", true)]
    ∧ _parse_links dupAnchorPage (str "http://h/") = [(str "X", str "http://h/x/", true)] := by
  refine ⟨fun html base => parseLinksAux_eq base (scanAnchors html) [], ?_, ?_⟩ <;> rfl

/-- C5.  Entry and frontier construction: the per-item loop maps every link
to an entry with `path = pathPrefix ++ name ++ ("/" if directory else "")`
and the resolved URL, and exactly the directory links produce next-frontier
items `(absoluteUrl, pathPrefix ++ name ++ "/")` at the next level; and every
extracted link comes from a kept scanned anchor, is classified a directory
exactly when its href ends in `/`, and carries the anchor text trimmed of
whitespace and trailing `/` as its name. -/
theorem parse_links_entry_frontier_construction :
    (∀ pfx links, processLinks pfx links
        = (links.map (entryOf pfx), links.filterMap (frontierOf pfx)))
    ∧ (∀ html base l, l ∈ _parse_links html base →
        ∃ href text, (href, text) ∈ scanAnchors html ∧ keepHref href = true
          ∧ l = (pyRstripSlash (pyStrip text), urljoin base href, endsWithSlash href)) := by
  constructor
  · exact processLinks_eq
  · intro html base l hl
    rw [_parse_links, parseLinksAux_eq] at hl
    obtain ⟨p, hp, rfl⟩ := List.mem_map.mp hl
    have hp' : p ∈ (scanAnchors html).filter (fun q => keepHref q.1) :=
      (dedupBy_sublist _ []).subset hp
    have hmem := List.mem_filter.mp hp'
    exact ⟨p.1, p.2, hmem.1, hmem.2, rfl⟩

/-- Witness for C5 at the spec's filtering page and its `Child` link. -/
theorem parse_links_entry_frontier_construction_witness :
    ∃ href text, (href, text) ∈ scanAnchors filterPage ∧ keepHref href = true
      ∧ (str "Child", str "http://h/child/", true)
          = (pyRstripSlash (pyStrip text), urljoin (str "http://h/") href, endsWithSlash href) :=
  parse_links_entry_frontier_construction.2 filterPage (str "http://h/")
    (str "Child", str "http://h/child/", true) (by decide)

/-- C6, counterexample.  The claim asserts a `ConfigError` for an empty root
URL or a non-positive depth; `crawl_directory` raises nothing there: with an
empty root URL and depth `0` it returns the empty result. -/
theorem crawl_no_config_error_on_invalid_input :
    crawl_directory (fun _ => none) idSched [] 0 1 = Except.ok [] := rfl

/-- C6, amended.  `crawl_directory` validates nothing itself: an empty root
URL is normalized to `/` and crawled, a non-positive depth returns a result
without error, and the only top-level failure is the `ValueError` raised by
`ThreadPoolExecutor` for a non-positive worker count, before any fetch. -/
theorem crawl_top_level_failure_only_workers (fetch : Str → Option Str)
    (sched : Nat → List Item → List Item) (root : Str) (d w : Int) :
    (w ≤ 0 → crawl_directory fetch sched root d w
          = Except.error (str "max_workers must be greater than 0")
        ∧ crawlFetchLog fetch sched root d w = [])
    ∧ (1 ≤ w → ∃ l, crawl_directory fetch sched root d w = Except.ok l) := by
  constructor
  · intro h
    constructor
    · simp only [crawl_directory]
      rw [if_pos h]
    · simp only [crawlFetchLog]
      rw [if_pos h]
  · intro h
    refine ⟨sortEntries (crawlLoop fetch sched d.toNat 0 [(normRoot root, [])]).1, ?_⟩
    simp only [crawl_directory]
    rw [if_neg (by omega)]

/-- Witness for C6 (amended) at `w = 0` and `w = 1`. -/
theorem crawl_top_level_failure_only_workers_witness :
    (crawl_directory (fun _ => none) idSched (str "x") 3 0
          = Except.error (str "max_workers must be greater than 0")
        ∧ crawlFetchLog (fun _ => none) idSched (str "x") 3 0 = [])
    ∧ ∃ l, crawl_directory (fun _ => none) idSched (str "x") 3 1 = Except.ok l :=
  ⟨(crawl_top_level_failure_only_workers (fun _ => none) idSched (str "x") 3 0).1 (by norm_num),
   (crawl_top_level_failure_only_workers (fun _ => none) idSched (str "x") 3 1).2 (by norm_num)⟩

/-- C10.  For every root and `workers >= 1`, `max_depth <= 0` (including
negative values) raises no error, submits no fetch, and returns `[]`. -/
theorem crawl_nonpositive_depth_empty (fetch : Str → Option Str)
    (sched : Nat → List Item → List Item) (root : Str) (d w : Int)
    (hd : d ≤ 0) (hw : 1 ≤ w) :
    crawl_directory fetch sched root d w = Except.ok []
      ∧ crawlFetchLog fetch sched root d w = [] := by
  have hstop : d.toNat = 0 := Int.toNat_of_nonpos hd
  constructor
  · simp only [crawl_directory]
    rw [if_neg (by omega), crawlLoop_stop fetch sched d.toNat 0 _ (Or.inr hstop)]
    rfl
  · simp only [crawlFetchLog]
    rw [if_neg (by omega), crawlLoop_stop fetch sched d.toNat 0 _ (Or.inr hstop)]

/-- Witness for C10 at depth `-3`. -/
theorem crawl_nonpositive_depth_empty_witness :
    crawl_directory fetchE2E idSched (str "http://h/") (-3) 2 = Except.ok []
      ∧ crawlFetchLog fetchE2E idSched (str "http://h/") (-3) 2 = [] :=
  crawl_nonpositive_depth_empty fetchE2E idSched (str "http://h/") (-3) 2
    (by norm_num) (by norm_num)

/-- C2.  `maxDepth` bounds directory expansions: `maxDepth = 0` yields an
empty result; with `maxDepth = 1` the result is exactly the sorted entries
parsed from the root page (directories discovered at depth 1 are recorded
but, as the fetch log shows, only the root is ever fetched — no grandchild
appears). -/
theorem crawl_depth_bound :
    (∀ (fetch : Str → Option Str) (sched : Nat → List Item → List Item) (root : Str) (w : Int),
        1 ≤ w → crawl_directory fetch sched root 0 w = Except.ok [])
    ∧ (∀ (fetch : Str → Option Str) (sched : Nat → List Item → List Item) (root : Str) (w : Int),
        1 ≤ w → (∀ l, (sched 0 l).Perm l) →
        crawl_directory fetch sched root 1 w
            = Except.ok (sortEntries (processItem fetch (normRoot root, [])).1)
          ∧ crawlFetchLog fetch sched root 1 w = [normRoot root]) := by
  constructor
  · intro fetch sched root w hw
    simp only [crawl_directory]
    rw [if_neg (by omega), crawlLoop_stop fetch sched (0 : Int).toNat 0 _ (Or.inr rfl)]
    rfl
  · intro fetch sched root w hw hsched
    have hone : sched 0 [(normRoot root, ([] : Str))] = [(normRoot root, [])] :=
      List.perm_singleton.mp (hsched _)
    constructor
    · simp only [crawl_directory]
      rw [if_neg (by omega)]
      show Except.ok (sortEntries (crawlLoop fetch sched 1 0 [(normRoot root, [])]).1) = _
      rw [crawlLoop_go fetch sched 0 0 _ (by simp), hone,
        crawlLoop_stop fetch sched 0 1 _ (Or.inr rfl)]
      simp
    · simp only [crawlFetchLog]
      rw [if_neg (by omega)]
      show (crawlLoop fetch sched 1 0 [(normRoot root, [])]).2 = _
      rw [crawlLoop_go fetch sched 0 0 _ (by simp), hone,
        crawlLoop_stop fetch sched 0 1 _ (Or.inr rfl)]
      simp

/-- C3.  Partial failure isolation: a fetch failure (`fetch = none`, the
caught `URLError`/`OSError`) on one frontier item contributes zero entries
and zero next-level items, the crawl does not crash, every other branch's
entries appear unchanged, and the failing URL is submitted exactly once (it
is not retried): removing the failing item from the level removes exactly
its one fetch from the log and changes no entry. -/
theorem crawl_fetch_failure_isolated (fetch : Str → Option Str)
    (fuel level : Nat) (pre post : List Item) (bad : Item)
    (hbad : fetch bad.1 = none) :
    (crawlLoop fetch idSched (fuel + 1) level (pre ++ bad :: post)).1
        = (crawlLoop fetch idSched (fuel + 1) level (pre ++ post)).1
      ∧ ∃ t, (crawlLoop fetch idSched (fuel + 1) level (pre ++ bad :: post)).2
              = pre.map Prod.fst ++ bad.1 :: (post.map Prod.fst ++ t)
           ∧ (crawlLoop fetch idSched (fuel + 1) level (pre ++ post)).2
              = pre.map Prod.fst ++ (post.map Prod.fst ++ t) := by
  have hpb : processItem fetch bad = ([], []) := by
    simp [processItem, hbad]
  have hne : pre ++ bad :: post ≠ [] := by simp
  rw [crawlLoop_go fetch idSched fuel level _ hne]
  simp only [idSched]
  have hflat1 : (pre ++ bad :: post).flatMap (fun it => (processItem fetch it).1)
      = (pre ++ post).flatMap (fun it => (processItem fetch it).1) := by
    simp [List.flatMap_append, List.flatMap_cons, hpb]
  have hflat2 : (pre ++ bad :: post).flatMap (fun it => (processItem fetch it).2)
      = (pre ++ post).flatMap (fun it => (processItem fetch it).2) := by
    simp [List.flatMap_append, List.flatMap_cons, hpb]
  rw [hflat1, hflat2]
  by_cases hpp : pre ++ post = []
  · obtain ⟨rfl, rfl⟩ : pre = [] ∧ post = [] := List.append_eq_nil.mp hpp
    simp only [List.nil_append, List.flatMap_nil, List.map_nil]
    rw [crawlLoop_stop fetch idSched (fuel + 1) level [] (Or.inl rfl),
      crawlLoop_stop fetch idSched fuel (level + 1) [] (Or.inl rfl)]
    refine ⟨?_, [], ?_, ?_⟩ <;> simp
  · rw [crawlLoop_go fetch idSched fuel level _ hpp]
    simp only [idSched]
    refine ⟨by simp,
      (crawlLoop fetch idSched fuel (level + 1)
        ((pre ++ post).flatMap (fun it => (processItem fetch it).2))).2,
      ?_, ?_⟩ <;> simp

/-- Witness for C3: failing one sibling of the end-to-end root level. -/
theorem crawl_fetch_failure_isolated_witness :
    (crawlLoop fetchE2E idSched 5 0
        ([] ++ (str "http://h/bad/", str "bad/") :: [(str "http://h/", [])])).1
        = (crawlLoop fetchE2E idSched 5 0 ([] ++ [(str "http://h/", [])])).1
      ∧ ∃ t, (crawlLoop fetchE2E idSched 5 0
              ([] ++ (str "http://h/bad/", str "bad/") :: [(str "http://h/", [])])).2
              = ([] : List Item).map Prod.fst
                  ++ (str "http://h/bad/", str "bad/").1
                    :: ([(str "http://h/", ([] : Str))].map Prod.fst ++ t)
           ∧ (crawlLoop fetchE2E idSched 5 0 ([] ++ [(str "http://h/", [])])).2
              = ([] : List Item).map Prod.fst
                  ++ ([(str "http://h/", ([] : Str))].map Prod.fst ++ t) :=
  crawl_fetch_failure_isolated fetchE2E 4 0 [] [(str "http://h/", [])]
    (str "http://h/bad/", str "bad/") (by decide)

/-- C1, counterexample.  For the fixed tree `fetchDup` (two directories with
the same display text), two completion orders — submission order and
`revSched`, which reverses the completions of level 1 and is a permutation
of every level — produce different entry lists: the two equal-path file
entries swap places, because Python's stable sort keeps insertion order on
equal paths and insertion order follows completion order. -/
theorem crawl_completion_order_changes_output :
    crawl_directory fetchDup revSched (str "http://h/") 2 1
        = Except.ok [⟨str "d", str "N/", str "http://h/x/"⟩,
            ⟨str "d", str "N/", str "http://h/y/"⟩,
            ⟨str "f", str "N/c", str "http://h/y/c"⟩,
            ⟨str "f", str "N/c", str "http://h/x/c"⟩]
      ∧ crawl_directory fetchDup idSched (str "http://h/") 2 1
        = Except.ok [⟨str "d", str "N/", str "http://h/x/"⟩,
            ⟨str "d", str "N/", str "http://h/y/"⟩,
            ⟨str "f", str "N/c", str "http://h/x/c"⟩,
            ⟨str "f", str "N/c", str "http://h/y/c"⟩]
      ∧ ([⟨str "d", str "N/", str "http://h/x/"⟩,
            ⟨str "d", str "N/", str "http://h/y/"⟩,
            ⟨str "f", str "N/c", str "http://h/y/c"⟩,
            ⟨str "f", str "N/c", str "http://h/x/c"⟩] : List Entry)
          ≠ [⟨str "d", str "N/", str "http://h/x/"⟩,
            ⟨str "d", str "N/", str "http://h/y/"⟩,
            ⟨str "f", str "N/c", str "http://h/x/c"⟩,
            ⟨str "f", str "N/c", str "http://h/y/c"⟩] :=
  ⟨rfl, rfl, by decide⟩

/-- C1, amended.  For a fixed tree the crawl is deterministic up to order
among equal-path entries: it is independent of the worker count, any
completion order yields the same entry multiset and the same sorted path
sequence as submission order, and when the entry paths are pairwise
distinct the full entry lists coincide. -/
theorem crawl_determinism_up_to_path_ties (fetch : Str → Option Str)
    (sched : Nat → List Item → List Item) (hs : ∀ n l, (sched n l).Perm l)
    (root : Str) (d w : Int) (hw : 1 ≤ w) :
    crawl_directory fetch sched root d w = crawl_directory fetch sched root d 1
    ∧ ∃ l l₀, crawl_directory fetch sched root d w = Except.ok l
        ∧ crawl_directory fetch idSched root d w = Except.ok l₀
        ∧ l.Perm l₀
        ∧ l.map Entry.path = l₀.map Entry.path
        ∧ ((l₀.map Entry.path).Nodup → l = l₀) := by
  haveI : IsTotal Entry (fun a b => entryLe a b = true) :=
    ⟨fun a b => by
      rcases strLe_total a.path b.path with h | h
      · exact Or.inl h
      · exact Or.inr h⟩
  haveI : IsTrans Entry (fun a b => entryLe a b = true) := ⟨entryLe_trans⟩
  have hok : crawl_directory fetch sched root d w
      = Except.ok (sortEntries (crawlLoop fetch sched d.toNat 0 [(normRoot root, [])]).1) := by
    simp only [crawl_directory]
    rw [if_neg (by omega)]
  have hok1 : crawl_directory fetch sched root d 1
      = Except.ok (sortEntries (crawlLoop fetch sched d.toNat 0 [(normRoot root, [])]).1) := by
    simp only [crawl_directory]
    rw [if_neg (by norm_num)]
  have hok0 : crawl_directory fetch idSched root d w
      = Except.ok (sortEntries (crawlLoop fetch idSched d.toNat 0 [(normRoot root, [])]).1) := by
    simp only [crawl_directory]
    rw [if_neg (by omega)]
  have hloop : ((crawlLoop fetch sched d.toNat 0 [(normRoot root, [])]).1).Perm
      ((crawlLoop fetch idSched d.toNat 0 [(normRoot root, [])]).1) :=
    crawlLoop_perm fetch sched idSched hs (fun n l => List.Perm.refl l) d.toNat 0 _ _
      (List.Perm.refl _)
  have hperm : (sortEntries (crawlLoop fetch sched d.toNat 0 [(normRoot root, [])]).1).Perm
      (sortEntries (crawlLoop fetch idSched d.toNat 0 [(normRoot root, [])]).1) :=
    ((List.perm_insertionSort _ _).trans hloop).trans (List.perm_insertionSort _ _).symm
  have hsorted : ∀ R : List Entry,
      List.Pairwise (fun a b => entryLe a b = true) (sortEntries R) :=
    fun R => List.sorted_insertionSort _ R
  refine ⟨hok.trans hok1.symm, _, _, hok, hok0, hperm, ?_, ?_⟩
  · exact map_path_eq_of_perm_sorted hperm (hsorted _) (hsorted _)
  · intro hnd
    exact eq_of_perm_sorted_nodup_paths hperm (hsorted _) (hsorted _)
      (((hperm.map Entry.path).nodup_iff).mpr hnd)

/-- Witness for C1 (amended) on the end-to-end tree with `revSched`. -/
theorem crawl_determinism_up_to_path_ties_witness :
    crawl_directory fetchE2E revSched (str "http://h/") 5 3
        = crawl_directory fetchE2E revSched (str "http://h/") 5 1
    ∧ ∃ l l₀, crawl_directory fetchE2E revSched (str "http://h/") 5 3 = Except.ok l
        ∧ crawl_directory fetchE2E idSched (str "http://h/") 5 3 = Except.ok l₀
        ∧ l.Perm l₀
        ∧ l.map Entry.path = l₀.map Entry.path
        ∧ ((l₀.map Entry.path).Nodup → l = l₀) :=
  crawl_determinism_up_to_path_ties fetchE2E revSched revSched_perm
    (str "http://h/") 5 3 (by norm_num)

/-- C7, counterexample.  Two links with the same display text `N` in one
directory yield two returned entries with the identical path `N/` (and their
files two entries with the identical path `N/c`): entry paths are not unique
within a crawl. -/
theorem crawl_duplicate_paths_exist :
    crawl_directory fetchDup idSched (str "http://h/") 2 1
        = Except.ok [⟨str "d", str "N/", str "http://h/x/"⟩,
            ⟨str "d", str "N/", str "http://h/y/"⟩,
            ⟨str "f", str "N/c", str "http://h/x/c"⟩,
            ⟨str "f", str "N/c", str "http://h/y/c"⟩]
      ∧ ¬ (([⟨str "d", str "N/", str "http://h/x/"⟩,
            ⟨str "d", str "N/", str "http://h/y/"⟩,
            ⟨str "f", str "N/c", str "http://h/x/c"⟩,
            ⟨str "f", str "N/c", str "http://h/y/c"⟩] : List Entry).map Entry.path).Nodup :=
  ⟨rfl, by decide⟩

/-- C7, amended.  Entry paths need not be distinct (equal display names
collide), but they are derived from the prefix chain, not from fetch
ordering: the sorted path sequence of the returned list is identical for
every completion order. -/
theorem crawl_path_sequence_deterministic (fetch : Str → Option Str)
    (sched : Nat → List Item → List Item) (hs : ∀ n l, (sched n l).Perm l)
    (root : Str) (d w : Int) (hw : 1 ≤ w) :
    ∃ l l₀, crawl_directory fetch sched root d w = Except.ok l
      ∧ crawl_directory fetch idSched root d w = Except.ok l₀
      ∧ l.map Entry.path = l₀.map Entry.path := by
  haveI : IsTotal Entry (fun a b => entryLe a b = true) :=
    ⟨fun a b => by
      rcases strLe_total a.path b.path with h | h
      · exact Or.inl h
      · exact Or.inr h⟩
  haveI : IsTrans Entry (fun a b => entryLe a b = true) := ⟨entryLe_trans⟩
  have hok : crawl_directory fetch sched root d w
      = Except.ok (sortEntries (crawlLoop fetch sched d.toNat 0 [(normRoot root, [])]).1) := by
    simp only [crawl_directory]
    rw [if_neg (by omega)]
  have hok0 : crawl_directory fetch idSched root d w
      = Except.ok (sortEntries (crawlLoop fetch idSched d.toNat 0 [(normRoot root, [])]).1) := by
    simp only [crawl_directory]
    rw [if_neg (by omega)]
  have hloop : ((crawlLoop fetch sched d.toNat 0 [(normRoot root, [])]).1).Perm
      ((crawlLoop fetch idSched d.toNat 0 [(normRoot root, [])]).1) :=
    crawlLoop_perm fetch sched idSched hs (fun n l => List.Perm.refl l) d.toNat 0 _ _
      (List.Perm.refl _)
  have hperm : (sortEntries (crawlLoop fetch sched d.toNat 0 [(normRoot root, [])]).1).Perm
      (sortEntries (crawlLoop fetch idSched d.toNat 0 [(normRoot root, [])]).1) :=
    ((List.perm_insertionSort _ _).trans hloop).trans (List.perm_insertionSort _ _).symm
  exact ⟨_, _, hok, hok0,
    map_path_eq_of_perm_sorted hperm
      (List.sorted_insertionSort _ _) (List.sorted_insertionSort _ _)⟩

/-- Witness for C7 (amended) on the duplicate-name tree with `revSched`. -/
theorem crawl_path_sequence_deterministic_witness :
    ∃ l l₀, crawl_directory fetchDup revSched (str "http://h/") 2 1 = Except.ok l
      ∧ crawl_directory fetchDup idSched (str "http://h/") 2 1 = Except.ok l₀
      ∧ l.map Entry.path = l₀.map Entry.path :=
  crawl_path_sequence_deterministic fetchDup revSched revSched_perm
    (str "http://h/") 2 1 (by norm_num)

/-- C8, counterexample.  An acyclic listing in which one directory is
reachable by two link chains (`fetchDia`, a DAG): `http://h/a/x/s/` is
discovered twice and fetched twice, so under the claim's DAG assumption the
fetched URLs are not pairwise distinct. -/
theorem crawl_dag_url_fetched_twice :
    crawlFetchLog fetchDia idSched (str "http://h/") 5 1
        = [str "http://h/", str "http://h/a/", str "http://h/a/x/",
            str "http://h/a/x/s/", str "http://h/a/x/s/"]
      ∧ ¬ (crawlFetchLog fetchDia idSched (str "http://h/") 5 1).Nodup := by
  constructor
  · rfl
  · rw [show crawlFetchLog fetchDia idSched (str "http://h/") 5 1
        = [str "http://h/", str "http://h/a/", str "http://h/a/x/",
            str "http://h/a/x/s/", str "http://h/a/x/s/"] from rfl]
    decide

/-- C8, amended.  Every fetch is either the root or one discovery of a
directory entry, so no URL is fetched more than once provided each
directory URL is discovered at most once — the root together with the
directory-entry URLs of the result (with multiplicity) pairwise distinct,
as in tree-shaped listings.  A DAG does not suffice (see the
counterexample). -/
theorem crawl_no_refetch_of_distinct_discoveries (fetch : Str → Option Str)
    (root : Str) (d w : Int) (hw : 1 ≤ w) (l : List Entry)
    (hl : crawl_directory fetch idSched root d w = Except.ok l)
    (hnd : (normRoot root :: l.filterMap dirUrl).Nodup) :
    (crawlFetchLog fetch idSched root d w).Nodup := by
  have hok : crawl_directory fetch idSched root d w
      = Except.ok (sortEntries (crawlLoop fetch idSched d.toNat 0 [(normRoot root, [])]).1) := by
    simp only [crawl_directory]
    rw [if_neg (by omega)]
  have hleq : l = sortEntries (crawlLoop fetch idSched d.toNat 0 [(normRoot root, [])]).1 :=
    Except.ok.inj (hl.symm.trans hok)
  have hlog : crawlFetchLog fetch idSched root d w
      = (crawlLoop fetch idSched d.toNat 0 [(normRoot root, [])]).2 := by
    simp only [crawlFetchLog]
    rw [if_neg (by omega)]
  have hperm : (l.filterMap dirUrl).Perm
      (((crawlLoop fetch idSched d.toNat 0 [(normRoot root, [])]).1).filterMap dirUrl) := by
    rw [hleq]
    exact List.Perm.filterMap dirUrl (List.perm_insertionSort _ _)
  have hnd' : (normRoot root
      :: ((crawlLoop fetch idSched d.toNat 0 [(normRoot root, [])]).1).filterMap dirUrl).Nodup :=
    ((hperm.cons (normRoot root)).nodup_iff).mp hnd
  rw [hlog]
  refine List.Nodup.sublist ?_ hnd'
  simpa using crawlLoop_log_sublist fetch d.toNat 0 [(normRoot root, [])]

/-- Witness for C8 (amended) on the end-to-end tree, whose discoveries are
distinct. -/
theorem crawl_no_refetch_of_distinct_discoveries_witness :
    (crawlFetchLog fetchE2E idSched (str "http://h/") 5 1).Nodup :=
  crawl_no_refetch_of_distinct_discoveries fetchE2E (str "http://h/") 5 1 (by norm_num)
    [⟨str "d", str "a/", str "http://h/a/"⟩,
     ⟨str "f", str "a/c.txt", str "http://h/a/c.txt"⟩,
     ⟨str "f", str "b.txt", str "http://h/b.txt"⟩] rfl (by decide)

/-- Witness for C2 on the end-to-end tree. -/
theorem crawl_depth_bound_witness :
    crawl_directory fetchE2E idSched (str "http://h/") 0 1 = Except.ok []
    ∧ crawl_directory fetchE2E idSched (str "http://h/") 1 1
        = Except.ok (sortEntries (processItem fetchE2E (normRoot (str "http://h/"), [])).1)
    ∧ crawlFetchLog fetchE2E idSched (str "http://h/") 1 1 = [normRoot (str "http://h/")] :=
  ⟨crawl_depth_bound.1 fetchE2E idSched (str "http://h/") 1 (by norm_num),
   (crawl_depth_bound.2 fetchE2E idSched (str "http://h/") 1 (by norm_num)
      (fun l => List.Perm.refl l)).1,
   (crawl_depth_bound.2 fetchE2E idSched (str "http://h/") 1 (by norm_num)
      (fun l => List.Perm.refl l)).2⟩

end RpCli
